import Mathlib

/-!
Verification of the future-value (FV) core of the rust-finprim library
(src/tvm/fv.rs).  Decimal values are modelled as exact rationals; the
constants crate::ZERO and crate::ONE become the rational constants below.
The Decimal power operation powd is exact on integer exponents; for a
fractional exponent it is an approximation, modelled here by an abstract
function frac supplied as a parameter, so every theorem quantified over
frac holds for any behaviour of the fractional-power routine.
-/

/-- The additive identity constant crate::ZERO. -/
def ZERO : ℚ := 0

/-- The multiplicative identity constant crate::ONE. -/
def ONE : ℚ := 1

/-- Model of Decimal::powd: exact power for an integer exponent, and an
abstract approximation frac for a fractional exponent. -/
def powd (frac : ℚ → ℚ → ℚ) (x e : ℚ) : ℚ :=
  if e.den = 1 then x ^ e.num else frac x e

/-- fv_internal from src/tvm/fv.rs: the mathematically signed future value.
pv resolves to ZERO when absent, due resolves to false when absent; the
zero-rate branch is linear, otherwise the compound-interest formula runs. -/
def fv_internal (frac : ℚ → ℚ → ℚ) (rate nper pmt : ℚ)
    (opv : Option ℚ) (odue : Option Bool) : ℚ :=
  let pv := opv.getD ZERO
  let due := odue.getD false
  if rate = ZERO then
    pmt * nper + pv
  else
    let nth_power := powd frac (ONE + rate) nper
    let factor := (nth_power - ONE) / rate
    let pv_grown := pv * nth_power
    if due then
      pmt * factor * (ONE + rate) + pv_grown
    else
      pmt * factor + pv_grown

/-- fv from src/tvm/fv.rs: the spreadsheet-convention wrapper, negating
the internal result. -/
def fv (frac : ℚ → ℚ → ℚ) (rate nper pmt : ℚ)
    (opv : Option ℚ) (odue : Option Bool) : ℚ :=
  -(fv_internal frac rate nper pmt opv odue)

/-- Division that signals a zero divisor instead of defaulting, used to
show the division in fv_internal never sees a zero divisor. -/
def checkedDiv (a b : ℚ) : Option ℚ :=
  if b = 0 then none else some (a / b)

/-- fv_internal with its division replaced by checkedDiv: returns none
exactly when the division would have a zero divisor. -/
def fv_internal_checked (frac : ℚ → ℚ → ℚ) (rate nper pmt : ℚ)
    (opv : Option ℚ) (odue : Option Bool) : Option ℚ :=
  let pv := opv.getD ZERO
  let due := odue.getD false
  if rate = ZERO then
    some (pmt * nper + pv)
  else
    let nth_power := powd frac (ONE + rate) nper
    match checkedDiv (nth_power - ONE) rate with
    | none => none
    | some factor =>
      let pv_grown := pv * nth_power
      some (if due then
        pmt * factor * (ONE + rate) + pv_grown
      else
        pmt * factor + pv_grown)

/-- fv with checked division, inherited from fv_internal_checked. -/
def fv_checked (frac : ℚ → ℚ → ℚ) (rate nper pmt : ℚ)
    (opv : Option ℚ) (odue : Option Bool) : Option ℚ :=
  (fv_internal_checked frac rate nper pmt opv odue).map (fun r => -r)

/-- A concrete instance of the fractional-power approximation, used only
to build closed witness statements. -/
def fracZero : ℚ → ℚ → ℚ := fun _ _ => 0

/-- Claim C1: for every rate, nper, pmt, optional pv and optional due, the
spreadsheet-convention fv is exactly the negation of fv_internal at the
same arguments. -/
theorem fv_eq_neg_fv_internal (frac : ℚ → ℚ → ℚ) (rate nper pmt : ℚ)
    (opv : Option ℚ) (odue : Option Bool) :
    fv frac rate nper pmt opv odue = -(fv_internal frac rate nper pmt opv odue) :=
  rfl

/-- Claim C3: with rate exactly zero, fv_internal is the linear value
pmt * nper + pv, with pv resolved to 0 when absent. -/
theorem fv_internal_zero_rate (frac : ℚ → ℚ → ℚ) (nper pmt : ℚ)
    (opv : Option ℚ) (odue : Option Bool) :
    fv_internal frac 0 nper pmt opv odue = pmt * nper + opv.getD 0 := by
  simp [fv_internal, ZERO]

/-- Claim C6: fv_internal with pv absent agrees with fv_internal with
pv = Some 0, for every rate, nper, pmt and due. -/
theorem fv_internal_pv_default (frac : ℚ → ℚ → ℚ) (rate nper pmt : ℚ)
    (odue : Option Bool) :
    fv_internal frac rate nper pmt none odue =
      fv_internal frac rate nper pmt (some 0) odue := by
  simp [fv_internal, ZERO]

/-- Claim C7: fv_internal with due absent agrees with fv_internal with
due = Some false, for every rate, nper, pmt and optional pv. -/
theorem fv_internal_due_default (frac : ℚ → ℚ → ℚ) (rate nper pmt : ℚ)
    (opv : Option ℚ) :
    fv_internal frac rate nper pmt opv none =
      fv_internal frac rate nper pmt opv (some false) := by
  simp [fv_internal]

/-- Claim C10: negating both cash-flow inputs pmt and pv negates the
result of fv_internal, for every rate, nper and due. -/
theorem fv_internal_neg_cashflows (frac : ℚ → ℚ → ℚ) (rate nper pmt pv : ℚ)
    (odue : Option Bool) :
    fv_internal frac rate nper (-pmt) (some (-pv)) odue =
      -(fv_internal frac rate nper pmt (some pv) odue) := by
  simp only [fv_internal, Option.getD_some]
  split_ifs <;> ring

/-- Claim C2: with rate not zero, fv_internal follows the compound
formula: with g = (1 + rate) ^ nper and f = (g - 1) / rate, the result is
pmt * f * (1 + rate) + pv * g when due resolves to true, and
pmt * f + pv * g otherwise. -/
theorem fv_internal_general_formula (frac : ℚ → ℚ → ℚ) (rate nper pmt : ℚ)
    (opv : Option ℚ) (odue : Option Bool) (h : rate ≠ 0) :
    fv_internal frac rate nper pmt opv odue =
      if odue.getD false then
        pmt * ((powd frac (1 + rate) nper - 1) / rate) * (1 + rate)
          + opv.getD 0 * powd frac (1 + rate) nper
      else
        pmt * ((powd frac (1 + rate) nper - 1) / rate)
          + opv.getD 0 * powd frac (1 + rate) nper := by
  simp [fv_internal, ZERO, ONE, h]

/-- Witness for claim C2 at rate 1, nper 2, pmt 3, pv 5, due true. -/
theorem fv_internal_general_formula_witness :
    (1 : ℚ) ≠ 0 ∧ fv_internal fracZero 1 2 3 (some 5) (some true) = 38 :=
  ⟨by norm_num, by
    rw [fv_internal_general_formula fracZero 1 2 3 (some 5) (some true) (by norm_num)]
    norm_num [powd]⟩

/-- Claim C5: when rate is zero, fv_internal ignores the due flag: None,
Some false and Some true all give the same value. -/
theorem fv_internal_zero_rate_due_irrelevant (frac : ℚ → ℚ → ℚ)
    (rate nper pmt : ℚ) (opv : Option ℚ) (h : rate = 0) :
    fv_internal frac rate nper pmt opv none =
        fv_internal frac rate nper pmt opv (some false) ∧
      fv_internal frac rate nper pmt opv none =
        fv_internal frac rate nper pmt opv (some true) := by
  subst h
  simp [fv_internal, ZERO]

/-- Witness for claim C5 at rate 0, nper 7, pmt 2, pv 3. -/
theorem fv_internal_zero_rate_due_irrelevant_witness :
    (0 : ℚ) = 0 ∧
      (fv_internal fracZero 0 7 2 (some 3) none =
          fv_internal fracZero 0 7 2 (some 3) (some false) ∧
        fv_internal fracZero 0 7 2 (some 3) none =
          fv_internal fracZero 0 7 2 (some 3) (some true)) :=
  ⟨rfl, fv_internal_zero_rate_due_irrelevant fracZero 0 7 2 (some 3) rfl⟩

/-- The checked variants always succeed and agree with the unchecked
functions: the division is only reached with a nonzero divisor. -/
theorem fv_internal_checked_eq (frac : ℚ → ℚ → ℚ) (rate nper pmt : ℚ)
    (opv : Option ℚ) (odue : Option Bool) :
    fv_internal_checked frac rate nper pmt opv odue =
      some (fv_internal frac rate nper pmt opv odue) := by
  unfold fv_internal_checked fv_internal checkedDiv
  by_cases hr : rate = ZERO
  · simp [hr]
  · simp [hr, ZERO] at *
    simp [hr]

/-- Claim C8: the division (nth_power - ONE) / rate in fv_internal runs
only on the branch where rate is nonzero, so the checked versions of
fv_internal and fv never signal a zero divisor, on every input. -/
theorem fv_division_never_zero_divisor (frac : ℚ → ℚ → ℚ)
    (rate nper pmt : ℚ) (opv : Option ℚ) (odue : Option Bool) :
    fv_internal_checked frac rate nper pmt opv odue =
        some (fv_internal frac rate nper pmt opv odue) ∧
      fv_checked frac rate nper pmt opv odue =
        some (fv frac rate nper pmt opv odue) := by
  refine ⟨fv_internal_checked_eq frac rate nper pmt opv odue, ?_⟩
  simp [fv_checked, fv, fv_internal_checked_eq]

/-- Claim C9: with nper zero, fv_internal returns the resolved present
value on both branches: the linear branch gives pmt * 0 + pv and the
compound branch has growth factor 1 and annuity factor 0. -/
theorem fv_internal_zero_nper (frac : ℚ → ℚ → ℚ) (rate pmt : ℚ)
    (opv : Option ℚ) (odue : Option Bool) :
    fv_internal frac rate 0 pmt opv odue = opv.getD 0 := by
  have hp : powd frac (1 + rate) 0 = 1 := by
    simp [powd]
  by_cases hr : rate = ZERO
  · simp [fv_internal, hr, ZERO]
  · simp [fv_internal, hr, ZERO, ONE, hp]

/-- Counterexample to claim C4: at rate 1 and pmt -1 with nper 0, the
due = true result equals the due = false result (the annuity factor is
zero), so it is not strictly less. -/
theorem fv_internal_due_lt_fails_at_zero_nper :
    ¬ (fv_internal fracZero 1 0 (-1) none (some true) <
        fv_internal fracZero 1 0 (-1) none (some false)) := by
  have hp : powd fracZero (1 + 1) 0 = 1 := by
    simp [powd]
  simp [fv_internal, ZERO, ONE, hp]

/-- Claim C4 amended: for rate > 0, pmt < 0 and a positive whole-number
nper, the due = true internal result is strictly less than the
due = false result with all other arguments identical. -/
theorem fv_internal_due_lt_ordinary (frac : ℚ → ℚ → ℚ)
    (rate nper pmt : ℚ) (opv : Option ℚ)
    (hr : 0 < rate) (hp : pmt < 0) (hden : nper.den = 1) (hn : 0 < nper) :
    fv_internal frac rate nper pmt opv (some true) <
      fv_internal frac rate nper pmt opv (some false) := by
  have hrne : rate ≠ ZERO := by
    simp only [ZERO]
    exact ne_of_gt hr
  have hone : (1 : ℚ) < 1 + rate := by linarith
  have hnum : 0 < nper.num := Rat.num_pos.mpr hn
  have hpow : powd frac (1 + rate) nper = (1 + rate) ^ nper.num := by
    simp [powd, hden]
  have hgt : (1 : ℚ) < (1 + rate) ^ nper.num := one_lt_zpow₀ hone hnum
  have hfac : 0 < ((1 + rate) ^ nper.num - 1) / rate :=
    div_pos (by linarith) hr
  have hneg : pmt * (((1 + rate) ^ nper.num - 1) / rate) < 0 :=
    mul_neg_of_neg_of_pos hp hfac
  have hmulrate : pmt * (((1 + rate) ^ nper.num - 1) / rate) * rate < 0 :=
    mul_neg_of_neg_of_pos hneg hr
  simp only [fv_internal, if_neg hrne, hpow, Option.getD_some, ONE,
    if_true, Bool.false_eq_true, if_false]
  nlinarith [hmulrate]

/-- Witness for the amended claim C4 at rate 1, nper 1, pmt -1, pv absent. -/
theorem fv_internal_due_lt_ordinary_witness :
    (0 : ℚ) < 1 ∧ (-1 : ℚ) < 0 ∧ (1 : ℚ).den = 1 ∧ (0 : ℚ) < 1 ∧
      fv_internal fracZero 1 1 (-1) none (some true) <
        fv_internal fracZero 1 1 (-1) none (some false) :=
  ⟨by norm_num, by norm_num, rfl, by norm_num,
    fv_internal_due_lt_ordinary fracZero 1 1 (-1) none (by norm_num)
      (by norm_num) rfl (by norm_num)⟩
